import Mathlib

/-!
Verification of the fixed-capacity arena allocator (`src/memory_manager.rs`
and the command wrappers `src/read.rs`, `src/update.rs`, `src/delete.rs`).

The Rust struct `MemoryManager { memory: [u8; 65535], allocations:
HashMap<u16, (usize, usize)>, next_free: usize }` is embedded shallowly:
the byte array becomes a `List Nat` (length 65535 as an invariant), the
hash map becomes an association list with unique keys, and `usize`/`u16`
values become `Nat` with explicit truncation `% 2 ^ 16` where the source
performs an `as u16` cast.  Fallible operations return their `Option`
outcome paired with the post state (Rust mutates `&mut self`).
-/

/-- Capacity of the arena: the Rust backing array is `[u8; 65535]`. -/
def CAP : Nat := 65535

/-- State of the Rust struct `MemoryManager`: the byte buffer, the
allocation table `id -> (start, size)` and the bump cursor `next_free`. -/
structure MemoryManager where
  memory : List Nat
  allocations : List (Nat × Nat × Nat)
  next_free : Nat
  deriving Repr, DecidableEq

/-- Embedding of `HashMap::get` / `contains_key` on the association-list
table: first entry whose key equals `id`, as `(start, size)`. -/
def lookupId (id : Nat) : List (Nat × Nat × Nat) → Option (Nat × Nat)
  | [] => none
  | (i, s, z) :: rest => if i = id then some (s, z) else lookupId id rest

/-- Embedding of `HashMap::remove`: drop the (unique) entry keyed `id`. -/
def removeId (id : Nat) : List (Nat × Nat × Nat) → List (Nat × Nat × Nat)
  | [] => []
  | (i, s, z) :: rest => if i = id then rest else (i, s, z) :: removeId id rest

/-- Embedding of `self.memory[start..start + data.len()].copy_from_slice(&data)`:
replace the slice of `mem` beginning at `start` by `data`. -/
def writeBytes (mem : List Nat) (start : Nat) (data : List Nat) : List Nat :=
  mem.take start ++ data ++ mem.drop (start + data.length)

/-- Embedding of the zero-fill loops `for i in a..a+n { self.memory[i] = 0 }`
in `update` and `delete`: zero `n` bytes starting at index `a`. -/
def zeroRange (mem : List Nat) (a : Nat) : Nat → List Nat
  | 0 => mem
  | n + 1 => zeroRange (mem.set a 0) (a + 1) n

/-- Embedding of `MemoryManager::new`: zeroed buffer, empty table, cursor 0. -/
def MemoryManager.new : MemoryManager :=
  { memory := List.replicate CAP 0, allocations := [], next_free := 0 }

/-- Embedding of `MemoryManager::insert` (src/memory_manager.rs lines 34-56):
reject a duplicate id, reject when `next_free + size > memory.len()`,
otherwise copy the data at the cursor, record the allocation and advance. -/
def MemoryManager.insert (m : MemoryManager) (id : Nat) (data : List Nat) :
    Option Unit × MemoryManager :=
  let size := data.length
  if (lookupId id m.allocations).isSome then (none, m)
  else if m.next_free + size > m.memory.length then (none, m)
  else
    let start := m.next_free
    (some (), { memory := writeBytes m.memory start data
                allocations := (id, start, size) :: m.allocations
                next_free := m.next_free + size })

/-- Embedding of `MemoryManager::read` (lines 66-72): copy of
`memory[start..start+size]` when the id is present. -/
def MemoryManager.read (m : MemoryManager) (id : Nat) : Option (List Nat) :=
  match lookupId id m.allocations with
  | some (start, size) => some ((m.memory.drop start).take size)
  | none => none

/-- Embedding of `MemoryManager::update` (lines 87-107): fail when the id is
absent or the new data is larger than the region; otherwise overwrite the
first `data.len()` bytes and zero-pad the remainder of the region. -/
def MemoryManager.update (m : MemoryManager) (id : Nat) (data : List Nat) :
    Option Unit × MemoryManager :=
  match lookupId id m.allocations with
  | some (start, size) =>
    if data.length > size then (none, m)
    else
      let mem1 := writeBytes m.memory start data
      let mem2 := if data.length < size then
          zeroRange mem1 (start + data.length) (size - data.length)
        else mem1
      (some (), { m with memory := mem2 })
  | none => (none, m)

/-- Embedding of `MemoryManager::delete` (lines 120-129): remove the entry
and zero its region; `next_free` is untouched. -/
def MemoryManager.delete (m : MemoryManager) (id : Nat) :
    Option Unit × MemoryManager :=
  match lookupId id m.allocations with
  | some (start, size) =>
    (some (), { m with memory := zeroRange m.memory start size
                       allocations := removeId id m.allocations })
  | none => (none, m)

/-- Embedding of `MemoryManager::dump` (lines 135-143): the enumeration it
prints, one `(id, start, size, contents)` tuple per live table entry. -/
def MemoryManager.dump (m : MemoryManager) : List (Nat × Nat × Nat × List Nat) :=
  m.allocations.map (fun e => (e.1, e.2.1, e.2.2, (m.memory.drop e.2.1).take e.2.2))

/-- Embedding of the Rust cast `id as u16` applied by the command wrappers
to their `usize` argument: truncation modulo `2 ^ 16`. -/
def u16cast (id : Nat) : Nat := id % 2 ^ 16

/-- Embedding of the wrapper `read` (src/read.rs): calls
`manager.read(id as u16)`. -/
def read_cmd (m : MemoryManager) (id : Nat) : Option (List Nat) :=
  m.read (u16cast id)

/-- Embedding of the wrapper `update` (src/update.rs): calls
`manager.update(id as u16, data)`. -/
def update_cmd (m : MemoryManager) (id : Nat) (data : List Nat) :
    Option Unit × MemoryManager :=
  m.update (u16cast id) data

/-- Embedding of the wrapper `delete` (src/delete.rs): calls
`manager.delete(id as u16)`. -/
def delete_cmd (m : MemoryManager) (id : Nat) : Option Unit × MemoryManager :=
  m.delete (u16cast id)

/-- One call to any of the five allocator operations, with its arguments. -/
inductive Op where
  | insertOp (id : Nat) (data : List Nat)
  | readOp (id : Nat)
  | updateOp (id : Nat) (data : List Nat)
  | deleteOp (id : Nat)
  | dumpOp

/-- The state after one operation; `read` and `dump` take `&self` and leave
the state untouched. -/
def applyOp (m : MemoryManager) : Op → MemoryManager
  | .insertOp id data => (m.insert id data).2
  | .readOp _ => m
  | .updateOp id data => (m.update id data).2
  | .deleteOp id => (m.delete id).2
  | .dumpOp => m

/-- The state reached from the fresh allocator by a sequence of operations. -/
def runOps (ops : List Op) : MemoryManager :=
  ops.foldl applyOp MemoryManager.new

/-- Two regions `(start, size)` occupy disjoint byte ranges. -/
def disjointRegions (e1 e2 : Nat × Nat × Nat) : Prop :=
  e1.2.1 + e1.2.2 ≤ e2.2.1 ∨ e2.2.1 + e2.2.2 ≤ e1.2.1

/-- The table invariant claimed by the spec: every entry fits below the
cursor, the cursor fits in the arena, and live regions are disjoint. -/
def TableInv (m : MemoryManager) : Prop :=
  (∀ e ∈ m.allocations, e.2.1 + e.2.2 ≤ m.next_free) ∧
  m.next_free ≤ CAP ∧
  m.allocations.Pairwise disjointRegions

/-- Internal invariant carried through the induction for `TableInv`: adds
the fixed buffer length and key uniqueness of the table. -/
def FullInv (m : MemoryManager) : Prop :=
  m.memory.length = CAP ∧
  (m.allocations.map Prod.fst).Nodup ∧
  TableInv m

/-! Helper lemmas about the table and the byte-buffer primitives. -/

theorem lookupId_nil (id : Nat) : lookupId id [] = none := rfl

theorem lookupId_cons (id i s z : Nat) (l : List (Nat × Nat × Nat)) :
    lookupId id ((i, s, z) :: l) =
      if i = id then some (s, z) else lookupId id l := rfl

theorem lookupId_eq_none_iff (id : Nat) (l : List (Nat × Nat × Nat)) :
    lookupId id l = none ↔ id ∉ l.map Prod.fst := by
  induction l with
  | nil => simp [lookupId]
  | cons e rest ih =>
    obtain ⟨i, s, z⟩ := e
    by_cases hi : i = id
    · subst hi
      simp [lookupId]
    · simp [lookupId, hi, ih, Ne.symm hi]

theorem lookupId_mem {id s z : Nat} {l : List (Nat × Nat × Nat)}
    (h : lookupId id l = some (s, z)) : (id, s, z) ∈ l := by
  induction l with
  | nil => simp [lookupId] at h
  | cons e rest ih =>
    obtain ⟨i, s0, z0⟩ := e
    rw [lookupId_cons] at h
    by_cases hi : i = id
    · rw [if_pos hi] at h
      simp only [Option.some.injEq, Prod.mk.injEq] at h
      obtain ⟨hs, hz⟩ := h
      subst hi hs hz
      exact List.mem_cons_self _ _
    · rw [if_neg hi] at h
      exact List.mem_cons_of_mem _ (ih h)

theorem removeId_sublist (id : Nat) (l : List (Nat × Nat × Nat)) :
    List.Sublist (removeId id l) l := by
  induction l with
  | nil => exact List.Sublist.refl _
  | cons e rest ih =>
    obtain ⟨i, s, z⟩ := e
    by_cases hi : i = id
    · rw [removeId, if_pos hi]
      exact List.sublist_cons_self _ _
    · rw [removeId, if_neg hi]
      exact ih.cons₂ (i, s, z)

theorem lookupId_removeId_self (id : Nat) (l : List (Nat × Nat × Nat))
    (h : (l.map Prod.fst).Nodup) : lookupId id (removeId id l) = none := by
  induction l with
  | nil => rfl
  | cons e rest ih =>
    obtain ⟨i, s, z⟩ := e
    simp only [List.map_cons, List.nodup_cons] at h
    by_cases hi : i = id
    · subst hi
      rw [removeId, if_pos rfl, lookupId_eq_none_iff]
      exact h.1
    · rw [removeId, if_neg hi, lookupId_cons, if_neg hi]
      exact ih h.2

theorem length_writeBytes (mem data : List Nat) (start : Nat)
    (h : start + data.length ≤ mem.length) :
    (writeBytes mem start data).length = mem.length := by
  simp only [writeBytes, List.length_append, List.length_take, List.length_drop]
  omega

theorem length_zeroRange : ∀ (n : Nat) (mem : List Nat) (a : Nat),
    (zeroRange mem a n).length = mem.length
  | 0, _, _ => rfl
  | n + 1, mem, a => by
    rw [zeroRange, length_zeroRange n]
    simp

theorem zeroRange_eq : ∀ (n : Nat) (mem : List Nat) (a : Nat),
    a + n ≤ mem.length →
    zeroRange mem a n = mem.take a ++ List.replicate n 0 ++ mem.drop (a + n)
  | 0, mem, a, _ => by
    simp [zeroRange]
  | n + 1, mem, a, h => by
    have ha : a < mem.length := by omega
    rw [zeroRange, zeroRange_eq n (mem.set a 0) (a + 1) (by simp; omega)]
    rw [List.drop_set_of_lt _ _ (by omega)]
    rw [List.set_eq_take_cons_drop _ ha]
    have hta : (mem.take a).length = a := List.length_take_of_le (by omega)
    rw [List.take_append_eq_append_take, hta]
    rw [List.take_of_length_le (by rw [hta]; omega)]
    have h1 : a + 1 - a = 1 := by omega
    rw [h1]
    have h2 : a + (n + 1) = a + 1 + n := by omega
    rw [h2, List.replicate_succ]
    simp [List.append_assoc]

theorem slice_middle (A B C : List Nat) :
    ((A ++ B ++ C).drop A.length).take B.length = B := by
  rw [List.append_assoc, List.drop_left, List.take_left]

theorem insert_ok (m : MemoryManager) (id : Nat) (data : List Nat)
    (h1 : lookupId id m.allocations = none)
    (h2 : m.next_free + data.length ≤ m.memory.length) :
    m.insert id data =
      (some (), { memory := writeBytes m.memory m.next_free data
                  allocations := (id, m.next_free, data.length) :: m.allocations
                  next_free := m.next_free + data.length }) := by
  simp only [MemoryManager.insert, h1, Option.isSome_none, Bool.false_eq_true,
    if_false, gt_iff_lt]
  rw [if_neg (by omega)]

theorem insert_none_of_dup (m : MemoryManager) (id : Nat) (data : List Nat)
    (h1 : (lookupId id m.allocations).isSome = true) :
    m.insert id data = (none, m) := by
  simp only [MemoryManager.insert, h1, if_true]

theorem insert_none_of_full (m : MemoryManager) (id : Nat) (data : List Nat)
    (h2 : m.next_free + data.length > m.memory.length) :
    m.insert id data = (none, m) := by
  have hc : m.memory.length < m.next_free + data.length := by omega
  simp only [MemoryManager.insert, gt_iff_lt]
  by_cases hd : (lookupId id m.allocations).isSome = true
  · rw [if_pos hd]
  · rw [if_neg hd, if_pos hc]

theorem insert_fst_eq_none_iff (m : MemoryManager) (id : Nat) (data : List Nat) :
    (m.insert id data).1 = none ↔
      (lookupId id m.allocations).isSome = true ∨
        m.next_free + data.length > m.memory.length := by
  constructor
  · intro h
    by_cases hd : (lookupId id m.allocations).isSome = true
    · exact Or.inl hd
    · by_cases hf : m.next_free + data.length > m.memory.length
      · exact Or.inr hf
      · rw [insert_ok m id data (by
            cases he : lookupId id m.allocations with
            | none => rfl
            | some v => rw [he] at hd; simp at hd) (by omega)] at h
        simp at h
  · intro h
    rcases h with hd | hf
    · rw [insert_none_of_dup m id data hd]
    · rw [insert_none_of_full m id data hf]

theorem update_ok_pad (m : MemoryManager) (id start size : Nat) (data : List Nat)
    (hl : lookupId id m.allocations = some (start, size))
    (hlt : data.length < size) :
    m.update id data =
      (some (), { m with memory := zeroRange (writeBytes m.memory start data) (start + data.length) (size - data.length) }) := by
  simp only [MemoryManager.update, hl, gt_iff_lt]
  have h1 : ¬size < data.length := by omega
  rw [if_neg h1, if_pos hlt]

theorem update_ok_exact (m : MemoryManager) (id start size : Nat)
    (data : List Nat)
    (hl : lookupId id m.allocations = some (start, size))
    (heq : data.length = size) :
    m.update id data =
      (some (), { m with memory := writeBytes m.memory start data }) := by
  simp only [MemoryManager.update, hl, gt_iff_lt]
  have h1 : ¬size < data.length := by omega
  have h2 : ¬data.length < size := by omega
  rw [if_neg h1, if_neg h2]

theorem update_none_of_absent (m : MemoryManager) (id : Nat) (data : List Nat)
    (hl : lookupId id m.allocations = none) :
    m.update id data = (none, m) := by
  simp only [MemoryManager.update, hl]

theorem update_none_of_large (m : MemoryManager) (id start size : Nat)
    (data : List Nat)
    (hl : lookupId id m.allocations = some (start, size))
    (hgt : data.length > size) :
    m.update id data = (none, m) := by
  simp only [MemoryManager.update, hl, gt_iff_lt]
  rw [if_pos (by omega)]

theorem delete_ok (m : MemoryManager) (id start size : Nat)
    (hl : lookupId id m.allocations = some (start, size)) :
    m.delete id =
      (some (), { m with memory := zeroRange m.memory start size
                         allocations := removeId id m.allocations }) := by
  simp only [MemoryManager.delete, hl]

theorem delete_none_of_absent (m : MemoryManager) (id : Nat)
    (hl : lookupId id m.allocations = none) :
    m.delete id = (none, m) := by
  simp only [MemoryManager.delete, hl]

theorem slice_middle_of_len (A B C : List Nat) (a b : Nat)
    (ha : A.length = a) (hb : B.length = b) :
    ((A ++ B ++ C).drop a).take b = B := by
  subst ha hb
  exact slice_middle A B C

theorem insert_cases (m : MemoryManager) (id : Nat) (data : List Nat) :
    m.insert id data = (none, m) ∨
    m.insert id data =
      (some (), { memory := writeBytes m.memory m.next_free data
                  allocations := (id, m.next_free, data.length) :: m.allocations
                  next_free := m.next_free + data.length }) := by
  by_cases hd : (lookupId id m.allocations).isSome = true
  · exact Or.inl (insert_none_of_dup m id data hd)
  · by_cases hf : m.next_free + data.length > m.memory.length
    · exact Or.inl (insert_none_of_full m id data hf)
    · refine Or.inr (insert_ok m id data ?_ (by omega))
      cases he : lookupId id m.allocations with
      | none => rfl
      | some v => rw [he] at hd; simp at hd

theorem insert_snd_eq_of_none (m : MemoryManager) (id : Nat) (data : List Nat)
    (h : (m.insert id data).1 = none) : (m.insert id data).2 = m := by
  rcases insert_cases m id data with hc | hc
  · rw [hc]
  · rw [hc] at h
    simp at h

theorem update_next_free_eq (m : MemoryManager) (id : Nat) (data : List Nat) :
    ((m.update id data).2).next_free = m.next_free := by
  cases hl : lookupId id m.allocations with
  | none => rw [update_none_of_absent m id data hl]
  | some v =>
    obtain ⟨s, z⟩ := v
    by_cases hgt : data.length > z
    · rw [update_none_of_large m id s z data hl hgt]
    · by_cases hlt : data.length < z
      · rw [update_ok_pad m id s z data hl hlt]
      · rw [update_ok_exact m id s z data hl (by omega)]

theorem update_allocations_eq (m : MemoryManager) (id : Nat) (data : List Nat) :
    ((m.update id data).2).allocations = m.allocations := by
  cases hl : lookupId id m.allocations with
  | none => rw [update_none_of_absent m id data hl]
  | some v =>
    obtain ⟨s, z⟩ := v
    by_cases hgt : data.length > z
    · rw [update_none_of_large m id s z data hl hgt]
    · by_cases hlt : data.length < z
      · rw [update_ok_pad m id s z data hl hlt]
      · rw [update_ok_exact m id s z data hl (by omega)]

theorem delete_next_free_eq (m : MemoryManager) (id : Nat) :
    ((m.delete id).2).next_free = m.next_free := by
  cases hl : lookupId id m.allocations with
  | none => rw [delete_none_of_absent m id hl]
  | some v =>
    obtain ⟨s, z⟩ := v
    rw [delete_ok m id s z hl]

/-- C1: inserting a fresh id whose payload fits in the remaining space
succeeds, and an immediately following read of that id returns exactly the
inserted bytes. -/
theorem insert_read_roundtrip (m : MemoryManager) (id : Nat) (data : List Nat)
    (hlen : m.memory.length = CAP)
    (habs : lookupId id m.allocations = none)
    (hfit : m.next_free + data.length ≤ CAP) :
    (m.insert id data).1 = some () ∧
    ((m.insert id data).2).read id = some data := by
  rw [insert_ok m id data habs (by omega)]
  refine ⟨rfl, ?_⟩
  have hl : lookupId id ((id, m.next_free, data.length) :: m.allocations) =
      some (m.next_free, data.length) := by
    rw [lookupId_cons, if_pos rfl]
  simp only [MemoryManager.read, hl, writeBytes]
  congr 1
  have ht : (m.memory.take m.next_free).length = m.next_free :=
    List.length_take_of_le (by omega)
  exact slice_middle_of_len _ _ _ _ _ ht rfl

/-- Witness for C1 at the fresh allocator with id 1 and payload "Hello". -/
theorem insert_read_roundtrip_witness :
    MemoryManager.new.memory.length = CAP ∧
    lookupId 1 MemoryManager.new.allocations = none ∧
    MemoryManager.new.next_free + ([72, 101, 108, 108, 111] : List Nat).length ≤ CAP ∧
    (MemoryManager.new.insert 1 [72, 101, 108, 108, 111]).1 = some () ∧
    ((MemoryManager.new.insert 1 [72, 101, 108, 108, 111]).2).read 1 =
      some [72, 101, 108, 108, 111] := by
  have h1 : MemoryManager.new.memory.length = CAP := by
    show (List.replicate CAP (0 : Nat)).length = CAP
    rw [List.length_replicate]
  have h2 : lookupId 1 MemoryManager.new.allocations = none := rfl
  have h3 : MemoryManager.new.next_free +
      ([72, 101, 108, 108, 111] : List Nat).length ≤ CAP := by
    decide
  obtain ⟨ha, hb⟩ := insert_read_roundtrip MemoryManager.new 1
    [72, 101, 108, 108, 111] h1 h2 h3
  exact ⟨h1, h2, h3, ha, hb⟩

/-- C3: a failing insert leaves the allocator state (arena bytes, table and
cursor) exactly as it was before the call. -/
theorem insert_fail_atomic (m : MemoryManager) (id : Nat) (data : List Nat)
    (h : (m.insert id data).1 = none) : (m.insert id data).2 = m := by
  exact insert_snd_eq_of_none m id data h

/-- Witness for C3: an oversized insert on the fresh allocator fails and
changes nothing. -/
theorem insert_fail_atomic_witness :
    (MemoryManager.new.insert 1 (List.replicate 65536 0)).1 = none ∧
    (MemoryManager.new.insert 1 (List.replicate 65536 0)).2 =
      MemoryManager.new := by
  have e1 : MemoryManager.new.next_free = 0 := rfl
  have e2 : MemoryManager.new.memory.length = CAP := by
    show (List.replicate CAP (0 : Nat)).length = CAP
    rw [List.length_replicate]
  have hgt : MemoryManager.new.next_free +
      (List.replicate 65536 (0 : Nat)).length >
      MemoryManager.new.memory.length := by
    rw [e1, e2, List.length_replicate]
    decide
  have h : (MemoryManager.new.insert 1 (List.replicate 65536 0)).1 = none := by
    rw [insert_none_of_full _ _ _ hgt]
  exact ⟨h, insert_fail_atomic MemoryManager.new 1 (List.replicate 65536 0) h⟩

/-- What the spec says the cursor becomes after one operation: advanced by
the payload length on a successful insert, untouched otherwise (this
definition restates the specification sentence, to be compared with the
code's behavior). -/
def specCursorAfter (m : MemoryManager) : Op → Nat
  | .insertOp id data =>
    match (m.insert id data).1 with
    | some _ => m.next_free + data.length
    | none => m.next_free
  | .readOp _ => m.next_free
  | .updateOp _ _ => m.next_free
  | .deleteOp _ => m.next_free
  | .dumpOp => m.next_free

/-- C7: across every operation the cursor never decreases; it advances by
the data length exactly on a successful insert and is unchanged by failed
inserts, reads, updates, deletes and dumps. -/
theorem cursor_evolution (m : MemoryManager) (op : Op) :
    (applyOp m op).next_free = specCursorAfter m op ∧
    m.next_free ≤ (applyOp m op).next_free := by
  cases op with
  | insertOp id data =>
    simp only [applyOp, specCursorAfter]
    rcases insert_cases m id data with hc | hc <;> rw [hc] <;> simp
  | readOp id => exact ⟨rfl, Nat.le_refl _⟩
  | updateOp id data =>
    simp only [applyOp, specCursorAfter]
    rw [update_next_free_eq]
    exact ⟨rfl, Nat.le_refl _⟩
  | deleteOp id =>
    simp only [applyOp, specCursorAfter]
    rw [delete_next_free_eq]
    exact ⟨rfl, Nat.le_refl _⟩
  | dumpOp => exact ⟨rfl, Nat.le_refl _⟩

/-- C4: with a fresh id, insert fails exactly when the payload length
exceeds `CAP - next_free`; a payload of exactly the remaining length
succeeds and leaves the cursor at `CAP`. -/
theorem capacity_boundary (m : MemoryManager) (id : Nat) (data : List Nat)
    (hlen : m.memory.length = CAP)
    (hcur : m.next_free ≤ CAP)
    (habs : lookupId id m.allocations = none) :
    ((m.insert id data).1 = none ↔ data.length > CAP - m.next_free) ∧
    (data.length = CAP - m.next_free →
      (m.insert id data).1 = some () ∧
      ((m.insert id data).2).next_free = CAP) := by
  constructor
  · rw [insert_fst_eq_none_iff]
    constructor
    · intro h
      rcases h with hd | hf
      · rw [habs] at hd
        simp at hd
      · omega
    · intro h
      right
      omega
  · intro he
    rw [insert_ok m id data habs (by omega)]
    refine ⟨rfl, ?_⟩
    show m.next_free + data.length = CAP
    omega

/-- Witness for C4 at the fresh allocator: a payload of exactly 65535
bytes fills the arena. -/
theorem capacity_boundary_witness :
    MemoryManager.new.memory.length = CAP ∧
    MemoryManager.new.next_free ≤ CAP ∧
    lookupId 1 MemoryManager.new.allocations = none ∧
    (List.replicate CAP (0 : Nat)).length = CAP - MemoryManager.new.next_free ∧
    (MemoryManager.new.insert 1 (List.replicate CAP 0)).1 = some () ∧
    ((MemoryManager.new.insert 1 (List.replicate CAP 0)).2).next_free = CAP := by
  have e1 : MemoryManager.new.next_free = 0 := rfl
  have h1 : MemoryManager.new.memory.length = CAP := by
    show (List.replicate CAP (0 : Nat)).length = CAP
    rw [List.length_replicate]
  have h2 : MemoryManager.new.next_free ≤ CAP := by
    rw [e1]
    exact Nat.zero_le _
  have h3 : lookupId 1 MemoryManager.new.allocations = none := rfl
  have h4 : (List.replicate CAP (0 : Nat)).length =
      CAP - MemoryManager.new.next_free := by
    rw [List.length_replicate, e1, Nat.sub_zero]
  obtain ⟨ha, hb⟩ :=
    (capacity_boundary MemoryManager.new 1 (List.replicate CAP 0) h1 h2 h3).2 h4
  exact ⟨h1, h2, h3, h4, ha, hb⟩

/-- C10: inserting the empty byte sequence under a fresh id succeeds,
changes neither the cursor nor the arena bytes, records a size-0 region,
makes read return the empty sequence, and makes the id a duplicate for any
further insert. -/
theorem insert_empty_payload (m : MemoryManager) (id : Nat) (d2 : List Nat)
    (habs : lookupId id m.allocations = none)
    (hcur : m.next_free ≤ m.memory.length) :
    (m.insert id []).1 = some () ∧
    ((m.insert id []).2).next_free = m.next_free ∧
    ((m.insert id []).2).memory = m.memory ∧
    lookupId id ((m.insert id []).2).allocations = some (m.next_free, 0) ∧
    ((m.insert id []).2).read id = some [] ∧
    (((m.insert id []).2).insert id d2).1 = none := by
  rw [insert_ok m id [] habs (by simp [hcur])]
  refine ⟨rfl, ?_, ?_, ?_, ?_, ?_⟩
  · show m.next_free + ([] : List Nat).length = m.next_free
    simp
  · show writeBytes m.memory m.next_free [] = m.memory
    simp [writeBytes]
  · simp [lookupId_cons]
  · simp [MemoryManager.read, lookupId_cons]
  · rw [insert_fst_eq_none_iff]
    left
    simp [lookupId_cons]

/-- Witness for C10 at the fresh allocator with id 3. -/
theorem insert_empty_payload_witness :
    lookupId 3 MemoryManager.new.allocations = none ∧
    MemoryManager.new.next_free ≤ MemoryManager.new.memory.length ∧
    (MemoryManager.new.insert 3 []).1 = some () ∧
    ((MemoryManager.new.insert 3 []).2).next_free =
      MemoryManager.new.next_free ∧
    ((MemoryManager.new.insert 3 []).2).memory = MemoryManager.new.memory ∧
    lookupId 3 ((MemoryManager.new.insert 3 []).2).allocations =
      some (MemoryManager.new.next_free, 0) ∧
    ((MemoryManager.new.insert 3 []).2).read 3 = some [] ∧
    (((MemoryManager.new.insert 3 []).2).insert 3 [1]).1 = none := by
  have h1 : lookupId 3 MemoryManager.new.allocations = none := rfl
  have h2 : MemoryManager.new.next_free ≤ MemoryManager.new.memory.length := by
    have e1 : MemoryManager.new.next_free = 0 := rfl
    rw [e1]
    exact Nat.zero_le _
  obtain ⟨ha, hb, hc, hd, he, hf⟩ := insert_empty_payload MemoryManager.new 3 [1] h1 h2
  exact ⟨h1, h2, ha, hb, hc, hd, he, hf⟩

theorem new_memory_length : MemoryManager.new.memory.length = CAP := by
  show (List.replicate CAP (0 : Nat)).length = CAP
  rw [List.length_replicate]

theorem new_next_free : MemoryManager.new.next_free = 0 := rfl

theorem new_allocations : MemoryManager.new.allocations = [] := rfl

theorem hello_bytes_length : ([72, 101, 108, 108, 111] : List Nat).length = 5 := rfl

theorem hello_fits : MemoryManager.new.next_free +
    ([72, 101, 108, 108, 111] : List Nat).length ≤
    MemoryManager.new.memory.length := by
  rw [new_next_free, new_memory_length]
  decide

/-- The state of the allocator after "Hello" has been inserted under id 1
into the fresh allocator (written out explicitly: the arena holds the five
bytes at offset 0, the table maps 1 to region `(0, 5)`, the cursor is 5);
used as the concrete state of several witnesses. -/
def helloState : MemoryManager :=
  MemoryManager.mk
    (writeBytes MemoryManager.new.memory 0 [72, 101, 108, 108, 111])
    [(1, 0, 5)] 5

theorem helloState_memory_length : helloState.memory.length = CAP := by
  show (writeBytes MemoryManager.new.memory 0 [72, 101, 108, 108, 111]).length = CAP
  rw [length_writeBytes _ _ _ (by rw [new_memory_length]; decide), new_memory_length]

theorem helloState_lookup : lookupId 1 helloState.allocations = some (0, 5) := rfl

theorem helloState_next_free : helloState.next_free = 5 := rfl

/-- C2: updating an existing region with too-large data fails and changes
nothing; otherwise it succeeds, overwrites the first `len(newData)` bytes,
zero-fills the rest of the region, and leaves the table (hence the recorded
size) unchanged. -/
theorem update_postcondition (m : MemoryManager) (id start size : Nat)
    (data : List Nat)
    (hl : lookupId id m.allocations = some (start, size))
    (hrange : start + size ≤ m.memory.length) :
    (data.length > size → m.update id data = (none, m)) ∧
    (data.length ≤ size →
      (m.update id data).1 = some () ∧
      (((m.update id data).2).memory.drop start).take data.length = data ∧
      (((m.update id data).2).memory.drop (start + data.length)).take
        (size - data.length) = List.replicate (size - data.length) 0 ∧
      ((m.update id data).2).allocations = m.allocations) := by
  constructor
  · intro hgt
    exact update_none_of_large m id start size data hl hgt
  · intro hle
    have h5 : (m.memory.take start ++ data).length = start + data.length := by
      rw [List.length_append, List.length_take_of_le (by omega)]
    by_cases hlt : data.length < size
    · rw [update_ok_pad m id start size data hl hlt]
      have hwlen : (writeBytes m.memory start data).length = m.memory.length :=
        length_writeBytes _ _ _ (by omega)
      have hz : zeroRange (writeBytes m.memory start data)
          (start + data.length) (size - data.length) =
          (writeBytes m.memory start data).take (start + data.length) ++
          List.replicate (size - data.length) 0 ++
          (writeBytes m.memory start data).drop
            (start + data.length + (size - data.length)) :=
        zeroRange_eq _ _ _ (by omega)
      have htake : (writeBytes m.memory start data).take (start + data.length) =
          m.memory.take start ++ data := by
        show ((m.memory.take start ++ data) ++
            m.memory.drop (start + data.length)).take (start + data.length) =
          m.memory.take start ++ data
        exact List.take_left' h5
      have hdrop : (writeBytes m.memory start data).drop
          (start + data.length + (size - data.length)) =
          m.memory.drop (start + size) := by
        show ((m.memory.take start ++ data) ++
            m.memory.drop (start + data.length)).drop
            (start + data.length + (size - data.length)) =
          m.memory.drop (start + size)
        have h6 : start + data.length + (size - data.length) =
            (m.memory.take start ++ data).length + (size - data.length) := by
          rw [h5]
        rw [h6, List.drop_append, List.drop_drop]
        congr 1
        omega
      refine ⟨rfl, ?_, ?_, rfl⟩
      · show ((zeroRange (writeBytes m.memory start data) (start + data.length)
            (size - data.length)).drop start).take data.length = data
        rw [hz, htake, hdrop, List.append_assoc (m.memory.take start ++ data)]
        have ht : (m.memory.take start).length = start :=
          List.length_take_of_le (by omega)
        exact slice_middle_of_len _ _ _ _ _ ht rfl
      · show ((zeroRange (writeBytes m.memory start data) (start + data.length)
            (size - data.length)).drop (start + data.length)).take
            (size - data.length) = List.replicate (size - data.length) 0
        rw [hz, htake, hdrop]
        have hr : (List.replicate (size - data.length) (0 : Nat)).length =
            size - data.length := by
          rw [List.length_replicate]
        exact slice_middle_of_len _ _ _ _ _ h5 hr
    · have heq : data.length = size := by omega
      rw [update_ok_exact m id start size data hl heq]
      refine ⟨rfl, ?_, ?_, rfl⟩
      · show ((writeBytes m.memory start data).drop start).take data.length = data
        show (((m.memory.take start ++ data) ++
            m.memory.drop (start + data.length)).drop start).take data.length = data
        have ht : (m.memory.take start).length = start :=
          List.length_take_of_le (by omega)
        exact slice_middle_of_len _ _ _ _ _ ht rfl
      · rw [heq, Nat.sub_self]
        show ((writeBytes m.memory start data).drop (start + data.length)).take 0 =
          List.replicate 0 0
        simp

/-- Witness for C2: shrink the 5-byte region of id 1 to the 2 bytes "Py";
the region reads back as "Py" followed by zero padding and keeps size 5. -/
theorem update_postcondition_witness :
    lookupId 1 helloState.allocations = some (0, 5) ∧
    0 + 5 ≤ helloState.memory.length ∧
    ([80, 121] : List Nat).length ≤ 5 ∧
    (helloState.update 1 [80, 121]).1 = some () ∧
    (((helloState.update 1 [80, 121]).2).memory.drop 0).take
      ([80, 121] : List Nat).length = [80, 121] ∧
    (((helloState.update 1 [80, 121]).2).memory.drop
      (0 + ([80, 121] : List Nat).length)).take
      (5 - ([80, 121] : List Nat).length) =
      List.replicate (5 - ([80, 121] : List Nat).length) 0 ∧
    ((helloState.update 1 [80, 121]).2).allocations = helloState.allocations := by
  have h1 : lookupId 1 helloState.allocations = some (0, 5) := helloState_lookup
  have h2 : 0 + 5 ≤ helloState.memory.length := by
    rw [helloState_memory_length]
    decide
  have h3 : ([80, 121] : List Nat).length ≤ 5 := by decide
  obtain ⟨ha, hb, hc, hd⟩ :=
    (update_postcondition helloState 1 0 5 [80, 121] h1 h2).2 h3
  exact ⟨h1, h2, h3, ha, hb, hc, hd⟩

/-- C5: deleting a present id succeeds, zero-fills its region, removes it
from the table (read then fails), leaves the cursor unchanged, and a
subsequent successful insert of a fresh id is placed at the old cursor
value rather than in the vacated bytes. -/
theorem delete_zeroes_and_forgets (m : MemoryManager)
    (id start size id2 : Nat) (d : List Nat)
    (hl : lookupId id m.allocations = some (start, size))
    (hrange : start + size ≤ m.memory.length)
    (hnodup : (m.allocations.map Prod.fst).Nodup)
    (habs2 : lookupId id2 (removeId id m.allocations) = none)
    (hfit : m.next_free + d.length ≤ m.memory.length) :
    (m.delete id).1 = some () ∧
    (((m.delete id).2).memory.drop start).take size = List.replicate size 0 ∧
    ((m.delete id).2).read id = none ∧
    ((m.delete id).2).next_free = m.next_free ∧
    (((m.delete id).2).insert id2 d).1 = some () ∧
    lookupId id2 ((((m.delete id).2).insert id2 d).2).allocations =
      some (m.next_free, d.length) := by
  have hdel := delete_ok m id start size hl
  have hr : lookupId id (removeId id m.allocations) = none :=
    lookupId_removeId_self id m.allocations hnodup
  have hfit2 : (MemoryManager.mk (zeroRange m.memory start size)
      (removeId id m.allocations) m.next_free).next_free + d.length ≤
      (MemoryManager.mk (zeroRange m.memory start size)
      (removeId id m.allocations) m.next_free).memory.length := by
    show m.next_free + d.length ≤ (zeroRange m.memory start size).length
    rw [length_zeroRange]
    exact hfit
  have hins := insert_ok (MemoryManager.mk (zeroRange m.memory start size)
    (removeId id m.allocations) m.next_free) id2 d habs2 hfit2
  rw [hdel]
  refine ⟨rfl, ?_, ?_, rfl, ?_, ?_⟩
  · show ((zeroRange m.memory start size).drop start).take size =
      List.replicate size 0
    rw [zeroRange_eq size m.memory start hrange]
    have ht : (m.memory.take start).length = start :=
      List.length_take_of_le (by omega)
    have hrep : (List.replicate size (0 : Nat)).length = size := by
      rw [List.length_replicate]
    exact slice_middle_of_len _ _ _ _ _ ht hrep
  · show MemoryManager.read (MemoryManager.mk (zeroRange m.memory start size)
      (removeId id m.allocations) m.next_free) id = none
    simp only [MemoryManager.read, hr]
  · show ((MemoryManager.mk (zeroRange m.memory start size)
      (removeId id m.allocations) m.next_free).insert id2 d).1 = some ()
    rw [hins]
  · show lookupId id2 (((MemoryManager.mk (zeroRange m.memory start size)
      (removeId id m.allocations) m.next_free).insert id2 d).2).allocations =
      some (m.next_free, d.length)
    rw [hins]
    show lookupId id2 ((id2, (MemoryManager.mk (zeroRange m.memory start size)
      (removeId id m.allocations) m.next_free).next_free, d.length) ::
      removeId id m.allocations) = some (m.next_free, d.length)
    rw [lookupId_cons, if_pos rfl]

/-- Witness for C5: delete id 1 from the "Hello" state, then insert "Hi"
under id 2; the new region starts at the old cursor value 5. -/
theorem delete_zeroes_and_forgets_witness :
    lookupId 1 helloState.allocations = some (0, 5) ∧
    0 + 5 ≤ helloState.memory.length ∧
    (helloState.allocations.map Prod.fst).Nodup ∧
    lookupId 2 (removeId 1 helloState.allocations) = none ∧
    helloState.next_free + ([72, 105] : List Nat).length ≤
      helloState.memory.length ∧
    (helloState.delete 1).1 = some () ∧
    (((helloState.delete 1).2).memory.drop 0).take 5 = List.replicate 5 0 ∧
    ((helloState.delete 1).2).read 1 = none ∧
    ((helloState.delete 1).2).next_free = helloState.next_free ∧
    (((helloState.delete 1).2).insert 2 [72, 105]).1 = some () ∧
    lookupId 2 ((((helloState.delete 1).2).insert 2 [72, 105]).2).allocations =
      some (helloState.next_free, ([72, 105] : List Nat).length) := by
  have h1 : lookupId 1 helloState.allocations = some (0, 5) := helloState_lookup
  have h2 : 0 + 5 ≤ helloState.memory.length := by
    rw [helloState_memory_length]
    decide
  have h3 : (helloState.allocations.map Prod.fst).Nodup := by decide
  have h4 : lookupId 2 (removeId 1 helloState.allocations) = none := rfl
  have h5 : helloState.next_free + ([72, 105] : List Nat).length ≤
      helloState.memory.length := by
    rw [helloState_next_free, helloState_memory_length]
    decide
  obtain ⟨ha, hb, hc, hd, he, hf⟩ :=
    delete_zeroes_and_forgets helloState 1 0 5 2 [72, 105] h1 h2 h3 h4 h5
  exact ⟨h1, h2, h3, h4, h5, ha, hb, hc, hd, he, hf⟩

/-- Counterexample for C8: in the "Hello" state, an insert that fails
because the id is a duplicate (space is available) and an insert that fails
because space is exhausted (the id is fresh) return the identical value
`none`, and likewise update's not-found and size-exceeded failures both
return `none`; the caller cannot tell the failure conditions apart from the
returned value alone. -/
theorem outcome_values_counterexample :
    (lookupId 1 helloState.allocations).isSome = true ∧
    helloState.next_free + ([9] : List Nat).length ≤ helloState.memory.length ∧
    lookupId 2 helloState.allocations = none ∧
    helloState.next_free + (List.replicate CAP (0 : Nat)).length >
      helloState.memory.length ∧
    (helloState.insert 1 [9]).1 = none ∧
    (helloState.insert 2 (List.replicate CAP 0)).1 = none ∧
    (helloState.insert 1 [9]).1 = (helloState.insert 2 (List.replicate CAP 0)).1 ∧
    lookupId 3 helloState.allocations = none ∧
    ([1, 2, 3, 4, 5, 6] : List Nat).length > 5 ∧
    (helloState.update 3 []).1 = none ∧
    (helloState.update 1 [1, 2, 3, 4, 5, 6]).1 = none ∧
    (helloState.update 3 []).1 = (helloState.update 1 [1, 2, 3, 4, 5, 6]).1 := by
  have c2 : helloState.next_free + ([9] : List Nat).length ≤
      helloState.memory.length := by
    rw [helloState_next_free, helloState_memory_length]
    decide
  have c4 : helloState.next_free + (List.replicate CAP (0 : Nat)).length >
      helloState.memory.length := by
    rw [helloState_next_free, helloState_memory_length, List.length_replicate]
    decide
  have c5 : (helloState.insert 1 [9]).1 = none := by
    rw [insert_none_of_dup helloState 1 [9] rfl]
  have c6 : (helloState.insert 2 (List.replicate CAP 0)).1 = none := by
    rw [insert_none_of_full helloState 2 (List.replicate CAP 0) c4]
  have c10 : (helloState.update 3 []).1 = none := by
    rw [update_none_of_absent helloState 3 [] rfl]
  have c11 : (helloState.update 1 [1, 2, 3, 4, 5, 6]).1 = none := by
    rw [update_none_of_large helloState 1 0 5 [1, 2, 3, 4, 5, 6]
      helloState_lookup (by decide)]
  exact ⟨rfl, c2, rfl, c4, c5, c6, by rw [c5, c6], rfl, by decide, c10, c11,
    by rw [c10, c11]⟩

/-- C8 (amended): every operation returns its outcome as an `Option`
value — `some ()` on success and `none` on failure — so the caller can
distinguish success from failure, but both failure conditions of insert
(duplicate id, out of space) and both of update (not found, size exceeded)
collapse to the same value `none`. -/
theorem outcome_characterization (m : MemoryManager) (id : Nat) (d : List Nat) :
    ((m.insert id d).1 = none ↔
      (lookupId id m.allocations).isSome = true ∨
        m.next_free + d.length > m.memory.length) ∧
    ((m.update id d).1 = none ↔
      lookupId id m.allocations = none ∨
        ∃ s z, lookupId id m.allocations = some (s, z) ∧ d.length > z) := by
  refine ⟨insert_fst_eq_none_iff m id d, ?_⟩
  cases hl : lookupId id m.allocations with
  | none =>
    rw [update_none_of_absent m id d hl]
    simp
  | some v =>
    obtain ⟨s, z⟩ := v
    by_cases hgt : d.length > z
    · rw [update_none_of_large m id s z d hl hgt]
      refine ⟨fun _ => Or.inr ⟨s, z, rfl, hgt⟩, fun _ => rfl⟩
    · constructor
      · intro hno
        by_cases hlt : d.length < z
        · rw [update_ok_pad m id s z d hl hlt] at hno
          simp at hno
        · rw [update_ok_exact m id s z d hl (by omega)] at hno
          simp at hno
      · intro hor
        rcases hor with hn | ⟨s1, z1, hsz, hgt1⟩
        · exact absurd hn (by simp)
        · simp only [Option.some.injEq, Prod.mk.injEq] at hsz
          obtain ⟨hs1, hz1⟩ := hsz
          subst hz1
          exact absurd hgt1 (by omega)

/-- C9: the command wrappers accept a wide (usize) identifier and silently
truncate it to 16 bits before calling the core, so each wrapper behaves
exactly as the core operation at `id mod 2^16`, and two wide ids congruent
modulo `2^16` address the same allocation. -/
theorem wrapper_truncation (m : MemoryManager) (id1 id2 : Nat) (d : List Nat)
    (hcong : id1 % 2 ^ 16 = id2 % 2 ^ 16) :
    read_cmd m id1 = m.read (id1 % 2 ^ 16) ∧
    update_cmd m id1 d = m.update (id1 % 2 ^ 16) d ∧
    delete_cmd m id1 = m.delete (id1 % 2 ^ 16) ∧
    read_cmd m id1 = read_cmd m id2 ∧
    update_cmd m id1 d = update_cmd m id2 d ∧
    delete_cmd m id1 = delete_cmd m id2 := by
  refine ⟨rfl, rfl, rfl, ?_, ?_, ?_⟩ <;>
    simp only [read_cmd, update_cmd, delete_cmd, u16cast, hcong]

/-- Witness for C9: the wide ids 65537 and 1 are congruent modulo `2^16`
and are treated identically by the wrappers. -/
theorem wrapper_truncation_witness :
    (65537 : Nat) % 2 ^ 16 = (1 : Nat) % 2 ^ 16 ∧
    read_cmd MemoryManager.new 65537 = MemoryManager.new.read (65537 % 2 ^ 16) ∧
    update_cmd MemoryManager.new 65537 [7] =
      MemoryManager.new.update (65537 % 2 ^ 16) [7] ∧
    delete_cmd MemoryManager.new 65537 = MemoryManager.new.delete (65537 % 2 ^ 16) ∧
    read_cmd MemoryManager.new 65537 = read_cmd MemoryManager.new 1 ∧
    update_cmd MemoryManager.new 65537 [7] = update_cmd MemoryManager.new 1 [7] ∧
    delete_cmd MemoryManager.new 65537 = delete_cmd MemoryManager.new 1 := by
  have hcong : (65537 : Nat) % 2 ^ 16 = (1 : Nat) % 2 ^ 16 := by decide
  obtain ⟨ha, hb, hc, hd, he, hf⟩ :=
    wrapper_truncation MemoryManager.new 65537 1 [7] hcong
  exact ⟨hcong, ha, hb, hc, hd, he, hf⟩

theorem insert_cases_strong (m : MemoryManager) (id : Nat) (data : List Nat) :
    m.insert id data = (none, m) ∨
    (lookupId id m.allocations = none ∧
      m.next_free + data.length ≤ m.memory.length ∧
      m.insert id data =
        (some (), { memory := writeBytes m.memory m.next_free data
                    allocations := (id, m.next_free, data.length) :: m.allocations
                    next_free := m.next_free + data.length })) := by
  by_cases hd : (lookupId id m.allocations).isSome = true
  · exact Or.inl (insert_none_of_dup m id data hd)
  · have habs : lookupId id m.allocations = none := by
      cases he : lookupId id m.allocations with
      | none => rfl
      | some v => rw [he] at hd; simp at hd
    by_cases hf : m.next_free + data.length > m.memory.length
    · exact Or.inl (insert_none_of_full m id data hf)
    · exact Or.inr ⟨habs, by omega, insert_ok m id data habs (by omega)⟩

theorem fullInv_new : FullInv MemoryManager.new := by
  refine ⟨new_memory_length, ?_, ?_, ?_, ?_⟩
  · rw [new_allocations]
    exact List.nodup_nil
  · rw [new_allocations]
    intro e he
    simp at he
  · rw [new_next_free]
    exact Nat.zero_le _
  · rw [new_allocations]
    exact List.Pairwise.nil

theorem fullInv_applyOp (m : MemoryManager) (op : Op) (h : FullInv m) :
    FullInv (applyOp m op) := by
  obtain ⟨hlen, hnodup, hbound, hcur, hdisj⟩ := h
  cases op with
  | readOp id => exact ⟨hlen, hnodup, hbound, hcur, hdisj⟩
  | dumpOp => exact ⟨hlen, hnodup, hbound, hcur, hdisj⟩
  | insertOp id data =>
    show FullInv (m.insert id data).2
    rcases insert_cases_strong m id data with hc | ⟨habs, hfit, hc⟩
    · rw [hc]
      exact ⟨hlen, hnodup, hbound, hcur, hdisj⟩
    · rw [hc]
      refine ⟨?_, ?_, ?_, ?_, ?_⟩
      · show (writeBytes m.memory m.next_free data).length = CAP
        rw [length_writeBytes _ _ _ hfit]
        exact hlen
      · show ((((id, m.next_free, data.length) :: m.allocations)).map
          Prod.fst).Nodup
        rw [List.map_cons]
        exact List.nodup_cons.2
          ⟨(lookupId_eq_none_iff id m.allocations).1 habs, hnodup⟩
      · intro e he
        rcases List.mem_cons.1 he with he1 | he2
        · subst he1
          exact Nat.le_refl _
        · exact Nat.le_trans (hbound e he2) (Nat.le_add_right _ _)
      · show m.next_free + data.length ≤ CAP
        omega
      · show ((id, m.next_free, data.length) :: m.allocations).Pairwise
          disjointRegions
        rw [List.pairwise_cons]
        refine ⟨?_, hdisj⟩
        intro e he
        exact Or.inr (hbound e he)
  | updateOp id data =>
    show FullInv (m.update id data).2
    cases hl : lookupId id m.allocations with
    | none =>
      rw [update_none_of_absent m id data hl]
      exact ⟨hlen, hnodup, hbound, hcur, hdisj⟩
    | some v =>
      obtain ⟨s, z⟩ := v
      have hsz : s + z ≤ m.next_free := hbound _ (lookupId_mem hl)
      by_cases hgt : data.length > z
      · rw [update_none_of_large m id s z data hl hgt]
        exact ⟨hlen, hnodup, hbound, hcur, hdisj⟩
      · have hwl : (writeBytes m.memory s data).length = m.memory.length :=
          length_writeBytes _ _ _ (by omega)
        by_cases hlt : data.length < z
        · rw [update_ok_pad m id s z data hl hlt]
          refine ⟨?_, hnodup, hbound, hcur, hdisj⟩
          show (zeroRange (writeBytes m.memory s data) (s + data.length)
            (z - data.length)).length = CAP
          rw [length_zeroRange, hwl]
          exact hlen
        · rw [update_ok_exact m id s z data hl (by omega)]
          refine ⟨?_, hnodup, hbound, hcur, hdisj⟩
          show (writeBytes m.memory s data).length = CAP
          rw [hwl]
          exact hlen
  | deleteOp id =>
    show FullInv (m.delete id).2
    cases hl : lookupId id m.allocations with
    | none =>
      rw [delete_none_of_absent m id hl]
      exact ⟨hlen, hnodup, hbound, hcur, hdisj⟩
    | some v =>
      obtain ⟨s, z⟩ := v
      rw [delete_ok m id s z hl]
      have hsub := removeId_sublist id m.allocations
      refine ⟨?_, ?_, ?_, hcur, ?_⟩
      · show (zeroRange m.memory s z).length = CAP
        rw [length_zeroRange]
        exact hlen
      · exact List.Nodup.sublist (hsub.map Prod.fst) hnodup
      · intro e he
        exact hbound e (hsub.subset he)
      · exact List.Pairwise.sublist hsub hdisj

theorem fullInv_foldl (ops : List Op) : ∀ (m : MemoryManager),
    FullInv m → FullInv (ops.foldl applyOp m) := by
  induction ops with
  | nil => intro m h; exact h
  | cons op rest ih =>
    intro m h
    exact ih (applyOp m op) (fullInv_applyOp m op h)

/-- C6: in every state reachable from the fresh allocator by any sequence
of the five operations, every table entry satisfies
`start + size <= next_free <= CAP` and the live regions are pairwise
disjoint. -/
theorem table_invariant_reachable (ops : List Op) : TableInv (runOps ops) := by
  have h := fullInv_foldl ops MemoryManager.new fullInv_new
  exact h.2.2

/-- Witness for C6 at a concrete operation sequence mixing all five
operations. -/
theorem table_invariant_reachable_witness :
    TableInv (runOps [Op.insertOp 1 [72, 101], Op.readOp 1,
      Op.updateOp 1 [80], Op.deleteOp 1, Op.dumpOp, Op.insertOp 2 [82]]) :=
  table_invariant_reachable
    [Op.insertOp 1 [72, 101], Op.readOp 1, Op.updateOp 1 [80],
      Op.deleteOp 1, Op.dumpOp, Op.insertOp 2 [82]]
